import Mathlib

/-!
A shallow embedding of the `concurrent-pool` Rust crate (src/pool.rs,
src/entry.rs) and proofs about it.

Modelling decisions:
* The concurrent code is modelled as a sequential state machine: each atomic
  load/store/rmw happens at a single program point, so an execution is an
  interleaving, i.e. a sequence of whole-operation steps (`Step` below).
* `usize` counters are modelled as `Nat`; the counters involved
  (`allocated`, `surpluspulls`, strong counts) are incremented at most once
  per operation and decremented only when positive in reachable states, so
  wrap-around never occurs there.
* `Prc<T>` cells are heap nodes identified by a `Nat` id.  The pool state
  keeps the cells sitting in the free queue in `queue` (in FIFO order,
  head = next to pop) and the cells out on loan in `out`; a `Prc` handle is
  modelled by the id of the cell it points to.
* `fn(&mut T)` hooks are modelled as `T → T`.
* A Rust `panic!` (the assertion in `with_config`, the push failure in
  `recycle`) is modelled by returning `none`.
-/

namespace ConcurrentPool

/-- The heap node behind a `Prc<T>`: the atomic strong count plus the
payload (`PrcInner` in src/entry.rs). -/
structure Cell (T : Type) where
  count : Nat
  data : T
  deriving Repr, DecidableEq

/-- `Config<T>` from src/pool.rs. -/
structure Config (T : Type) where
  capacity : Nat
  prealloc : Nat
  auto_reclaim : Bool
  surpluspull_threshold_for_reclaim : Nat
  idle_threshold_for_surpluspull : Nat
  clear_func : Option (T → T)
  need_process_reclamation : Bool

/-- `impl Default for Config<T>` from src/pool.rs. -/
def Config.default (T : Type) : Config T :=
  { capacity := 1024
    prealloc := 0
    auto_reclaim := false
    clear_func := none
    surpluspull_threshold_for_reclaim := 0
    idle_threshold_for_surpluspull := 0
    need_process_reclamation := false }

/-- `Config::post_process` from src/pool.rs. -/
def Config.post_process (c : Config T) : Config T :=
  let c :=
    if c.idle_threshold_for_surpluspull = 0 then
      { c with idle_threshold_for_surpluspull := max 1 (c.capacity / 20) }
    else c
  let c :=
    if c.surpluspull_threshold_for_reclaim = 0 then
      { c with surpluspull_threshold_for_reclaim := max 2 (c.capacity / 100) }
    else c
  { c with need_process_reclamation := c.auto_reclaim && c.prealloc ≠ c.capacity }

/-- The state of a `Pool<T>` together with the cells it has allocated.
`queue` is the `ArrayQueue` contents in FIFO order (head is the next cell
popped); `queueCap` its fixed capacity; `out` the allocated cells currently
out on loan (held by `Entry`/`OwnedEntry` handles), each identified by its
id; `nextId` the next fresh cell id. -/
structure PoolState (T : Type) where
  config : Config T
  queue : List (Nat × Cell T)
  queueCap : Nat
  out : List (Nat × Cell T)
  allocated : Nat
  surpluspulls : Nat
  additional_allocated : Bool
  nextId : Nat

namespace Pool

/-- `Pool::with_config` from src/pool.rs.  The `assert!(prealloc <= capacity)`
panic is modelled by `none`.  The `prealloc` pre-allocated cells are zero-born
(`Prc::new_zero`) and pushed into the queue; ids `0..prealloc` are assigned to
them. -/
def with_config (cfg : Config T) (d : T) : Option (PoolState T) :=
  let config := cfg.post_process
  if config.prealloc ≤ config.capacity then
    some
      { config := config
        queueCap := max 1 config.capacity
        queue := (List.range config.prealloc).map fun i => (i, ⟨0, d⟩)
        out := []
        allocated := config.prealloc
        surpluspulls := 0
        additional_allocated := false
        nextId := config.prealloc }
  else none

/-- `Pool::new` from src/pool.rs. -/
def new (prealloc capacity : Nat) (d : T) : Option (PoolState T) :=
  with_config { Config.default T with capacity := capacity, prealloc := prealloc } d

/-- `Pool::with_capacity` from src/pool.rs. -/
def with_capacity (capacity : Nat) (d : T) : Option (PoolState T) :=
  new capacity capacity d

/-- `Pool::with_capacity_half_prealloc` from src/pool.rs. -/
def with_capacity_half_prealloc (capacity : Nat) (d : T) : Option (PoolState T) :=
  new (capacity / 2) capacity d

/-- `Pool::in_use` from src/pool.rs: `allocated - queue.len()`. -/
def in_use (s : PoolState T) : Nat :=
  s.allocated - s.queue.length

/-- `Pool::available` from src/pool.rs: `capacity - in_use()`. -/
def available (s : PoolState T) : Nat :=
  s.config.capacity - in_use s

/-- `Pool::available_noalloc` from src/pool.rs: `queue.len()`. -/
def available_noalloc (s : PoolState T) : Nat :=
  s.queue.length

/-- `Pool::capacity` from src/pool.rs. -/
def capacity (s : PoolState T) : Nat :=
  s.config.capacity

/-- `Pool::is_empty` from src/pool.rs. -/
def is_empty (s : PoolState T) : Bool :=
  available s = 0

/-- `Pool::reclaim` from src/pool.rs: pop one cell, drop it, decrement
`allocated`; clear `additional_allocated` once `allocated` is back at or
below `prealloc`. -/
def reclaim (s : PoolState T) : PoolState T :=
  match s.queue with
  | [] => s
  | _ :: rest =>
    let current := s.allocated - 1
    let aa :=
      if s.config.need_process_reclamation ∧ current ≤ s.config.prealloc then false
      else s.additional_allocated
    { s with queue := rest, allocated := current, additional_allocated := aa }

/-- `Pool::pull_inner` from src/pool.rs.  Returns the pulled cell (if any)
and the new pool state; a freshly pulled cell is also prepended to `out`.
The load-then-store on `additional_allocated` is modelled by its net effect
(store `true`). -/
def pull_inner (d : T) (s : PoolState T) : Option (Nat × Cell T) × PoolState T :=
  match s.queue with
  | [] =>
    let s1 :=
      { s with
        additional_allocated := true
        surpluspulls := if s.config.need_process_reclamation then 0 else s.surpluspulls }
    if s1.allocated < s1.config.capacity then
      let cell : Nat × Cell T := (s1.nextId, ⟨1, d⟩)
      (some cell,
        { s1 with
          allocated := s1.allocated + 1
          out := cell :: s1.out
          nextId := s1.nextId + 1 })
    else (none, s1)
  | (id, c) :: rest =>
    let s1 := { s with queue := rest }
    let s2 :=
      if s1.config.need_process_reclamation then
        if s1.config.idle_threshold_for_surpluspull ≤ rest.length then
          let sp := s1.surpluspulls + 1
          let s' := { s1 with surpluspulls := sp }
          if s1.config.surpluspull_threshold_for_reclaim ≤ sp ∧
              s1.additional_allocated = true then
            reclaim s'
          else s'
        else { s1 with surpluspulls := 0 }
      else s1
    let cell : Nat × Cell T := (id, { c with count := c.count + 1 })
    (some cell, { s2 with out := cell :: s2.out })

/-- `Pool::recycle` from src/pool.rs: apply the clear hook if configured,
push the cell back onto the queue; a push failure (queue full) is the
`panic!` branch, modelled by `none`. -/
def recycle (s : PoolState T) (idc : Nat × Cell T) : Option (PoolState T) :=
  let c :=
    match s.config.clear_func with
    | some f => { idc.2 with data := f idc.2.data }
    | none => idc.2
  if s.queue.length < s.queueCap then
    some { s with queue := s.queue ++ [(idc.1, c)] }
  else none

end Pool

/-- Look up the cell with the given id among the cells out on loan
(first occurrence). -/
def outFind (l : List (Nat × Cell T)) (id : Nat) : Option (Cell T) :=
  match l with
  | [] => none
  | p :: rest => if p.1 = id then some p.2 else outFind rest id

/-- Apply `f` to the cell with the given id (first occurrence) among the
cells out on loan. -/
def outModify (l : List (Nat × Cell T)) (id : Nat) (f : Cell T → Cell T) :
    List (Nat × Cell T) :=
  match l with
  | [] => []
  | p :: rest => if p.1 = id then (p.1, f p.2) :: rest else p :: outModify rest id f

/-- Remove the cell with the given id (first occurrence) from the cells out
on loan. -/
def outErase (l : List (Nat × Cell T)) (id : Nat) : List (Nat × Cell T) :=
  match l with
  | [] => []
  | p :: rest => if p.1 = id then rest else p :: outErase rest id

/-- `impl Clone for Entry`/`OwnedEntry` (src/entry.rs), which clones the
inner `Prc` via `Prc::inc_ref`: the strong count of the cell the handle
points to is incremented. -/
def cloneHandle (s : PoolState T) (id : Nat) : PoolState T :=
  { s with out := outModify s.out id fun c => { c with count := c.count + 1 } }

/-- `impl Drop for Entry`/`OwnedEntry` (src/entry.rs): `dec_ref` the cell;
if the previous count was 1 this was the last handle, so the cell is taken
out of the handle and `Pool::recycle` is invoked on it.  `none` models the
recycle panic (and the impossible case of releasing a handle to a cell not
out on loan). -/
def releaseHandle (s : PoolState T) (id : Nat) : Option (PoolState T) :=
  match outFind s.out id with
  | none => none
  | some c =>
    if c.count = 1 then
      Pool.recycle { s with out := outErase s.out id } (id, { c with count := c.count - 1 })
    else
      some { s with out := outModify s.out id fun c => { c with count := c.count - 1 } }

/-- `Pool::pull_with` from src/pool.rs: pull, then apply `func` to the
pulled cell through `get_mut_unchecked`. -/
def pullWith (f : T → T) (d : T) (s : PoolState T) :
    Option (Nat × Cell T) × PoolState T :=
  match Pool.pull_inner d s with
  | (none, s') => (none, s')
  | (some (id, c), s') =>
    let c' := { c with data := f c.data }
    (some (id, c'), { s' with out := outModify s'.out id fun _ => c' })

/-- `Prc::get_mut` from src/entry.rs (also `Entry::get_mut` and
`OwnedEntry::get_mut`, which delegate to it): an exclusive reference to the
payload iff the strong count is `≤ 1`. -/
def Prc.get_mut (c : Cell T) : Option T :=
  if c.count ≤ 1 then some c.data else none

/-- One step of the system: a pull, a handle clone, a handle release, or a
reclaim.  Handle steps require a live handle, i.e. a cell with that id out
on loan; the reclaim step is guarded by `need_process_reclamation`, the
condition guarding its only call site in `pull_inner`. -/
inductive Step (d : T) : PoolState T → PoolState T → Prop
  | pull (s : PoolState T) : Step d s (Pool.pull_inner d s).2
  | clone (s : PoolState T) (id : Nat) (c : Cell T) (h : outFind s.out id = some c) :
      Step d s (cloneHandle s id)
  | release (s : PoolState T) (id : Nat) (s' : PoolState T)
      (h : releaseHandle s id = some s') : Step d s s'
  | reclaim (s : PoolState T) (h : s.config.need_process_reclamation = true) :
      Step d s (Pool.reclaim s)

/-- Reachability by any sequence of steps. -/
abbrev Reachable (d : T) : PoolState T → PoolState T → Prop :=
  Relation.ReflTransGen (Step d)

/-! ### Lemmas about the out-on-loan association list -/

theorem outFind_mem {l : List (Nat × Cell T)} {id : Nat} {c : Cell T}
    (h : outFind l id = some c) : (id, c) ∈ l := by
  induction l with
  | nil => simp [outFind] at h
  | cons p rest ih =>
    rw [outFind] at h
    split at h
    · next heq =>
      obtain ⟨rfl⟩ := h
      obtain ⟨p1, p2⟩ := p
      subst heq
      exact List.mem_cons_self _ _
    · exact List.mem_cons_of_mem _ (ih h)

theorem length_outModify (l : List (Nat × Cell T)) (id : Nat) (f : Cell T → Cell T) :
    (outModify l id f).length = l.length := by
  induction l with
  | nil => rfl
  | cons p rest ih =>
    rw [outModify]
    split <;> simp [ih]

theorem mem_outModify_of_find {l : List (Nat × Cell T)} {id : Nat} {c : Cell T}
    (f : Cell T → Cell T) (h : outFind l id = some c) :
    ∀ p ∈ outModify l id f, p ∈ l ∨ p = (id, f c) := by
  induction l with
  | nil => simp [outModify]
  | cons q rest ih =>
    rw [outFind] at h
    rw [outModify]
    split
    · next heq =>
      obtain ⟨rfl⟩ : some q.2 = some c := by rw [← h, if_pos heq]
      intro p hp
      rcases List.mem_cons.1 hp with hp | hp
      · right; rw [hp, heq]
      · left; exact List.mem_cons_of_mem _ hp
    · next hne =>
      rw [if_neg hne] at h
      intro p hp
      rcases List.mem_cons.1 hp with hp | hp
      · left; rw [hp]; exact List.mem_cons_self _ _
      · rcases ih h p hp with h' | h'
        · left; exact List.mem_cons_of_mem _ h'
        · right; exact h'

theorem outFind_outModify_self (l : List (Nat × Cell T)) (id : Nat)
    (f : Cell T → Cell T) :
    outFind (outModify l id f) id = (outFind l id).map f := by
  induction l with
  | nil => rfl
  | cons p rest ih =>
    rw [outModify, outFind]
    split
    · next heq => simp [outFind, heq]
    · next hne => simp [outFind, hne, ih]

theorem outModify_outModify (l : List (Nat × Cell T)) (id : Nat)
    (f g : Cell T → Cell T) :
    outModify (outModify l id f) id g = outModify l id (g ∘ f) := by
  induction l with
  | nil => rfl
  | cons p rest ih =>
    rw [outModify]
    split
    · next heq => simp [outModify, heq]
    · next hne => simp [outModify, hne, ih]

theorem outModify_id (l : List (Nat × Cell T)) (id : Nat) :
    outModify l id (fun c => c) = l := by
  induction l with
  | nil => rfl
  | cons p rest ih =>
    rw [outModify]
    split <;> simp [ih]

theorem length_outErase {l : List (Nat × Cell T)} {id : Nat} {c : Cell T}
    (h : outFind l id = some c) : (outErase l id).length + 1 = l.length := by
  induction l with
  | nil => simp [outFind] at h
  | cons p rest ih =>
    rw [outFind] at h
    rw [outErase]
    split
    · rfl
    · next hne =>
      rw [if_neg hne] at h
      simp [← ih h]

theorem mem_outErase {l : List (Nat × Cell T)} {id : Nat} :
    ∀ p ∈ outErase l id, p ∈ l := by
  induction l with
  | nil => simp [outErase]
  | cons q rest ih =>
    rw [outErase]
    split
    · intro p hp; exact List.mem_cons_of_mem _ hp
    · intro p hp
      rcases List.mem_cons.1 hp with hp | hp
      · rw [hp]; exact List.mem_cons_self _ _
      · exact List.mem_cons_of_mem _ (ih p hp)

/-! ### The pool invariant -/

/-- The inductive invariant of the pool state: `allocated` counts exactly
the live cells (in-queue plus out-on-loan), never exceeds the configured
capacity; the queue capacity is `max 1 capacity` as set at construction;
cells in the queue have strong count 0, cells out on loan have strong
count at least 1. -/
structure Inv (s : PoolState T) : Prop where
  bal : s.allocated = s.queue.length + s.out.length
  cap : s.allocated ≤ s.config.capacity
  qcap : s.queueCap = max 1 s.config.capacity
  queue_count : ∀ p ∈ s.queue, p.2.count = 0
  out_count : ∀ p ∈ s.out, 1 ≤ p.2.count

theorem inv_with_config {cfg : Config T} {d : T} {s0 : PoolState T}
    (h : Pool.with_config cfg d = some s0) : Inv s0 := by
  rw [Pool.with_config] at h
  split at h
  · next hle =>
    obtain ⟨rfl⟩ := h
    refine ⟨by simp, by simpa using hle, rfl, ?_, by simp⟩
    intro p hp
    simp only [List.mem_map, List.mem_range] at hp
    obtain ⟨i, -, rfl⟩ := hp
    rfl
  · exact absurd h (by simp)

/-- The invariant shape that holds in the middle of `pull_inner`'s non-empty
branch: the popped cell is held in hand, so `allocated` exceeds the live
cells recorded in the state by one. -/
structure InvHand (s : PoolState T) : Prop where
  bal : s.allocated = s.queue.length + s.out.length + 1
  cap : s.allocated ≤ s.config.capacity
  qcap : s.queueCap = max 1 s.config.capacity
  queue_count : ∀ p ∈ s.queue, p.2.count = 0
  out_count : ∀ p ∈ s.out, 1 ≤ p.2.count

theorem invHand_reclaim {s : PoolState T} (h : InvHand s) :
    InvHand (Pool.reclaim s) := by
  obtain ⟨hbal, hcap, hqc, hq0, hout1⟩ := h
  rw [Pool.reclaim]
  split
  · exact ⟨hbal, hcap, hqc, hq0, hout1⟩
  · next q rest hq =>
    rw [hq, List.length_cons] at hbal
    refine ⟨?_, ?_, hqc, ?_, hout1⟩
    · show s.allocated - 1 = rest.length + s.out.length + 1
      omega
    · show s.allocated - 1 ≤ s.config.capacity
      omega
    · intro p hp
      exact hq0 p (by rw [hq]; exact List.mem_cons_of_mem _ hp)

theorem inv_reclaim {s : PoolState T} (h : Inv s) : Inv (Pool.reclaim s) := by
  obtain ⟨hbal, hcap, hqc, hq0, hout1⟩ := h
  rw [Pool.reclaim]
  split
  · exact ⟨hbal, hcap, hqc, hq0, hout1⟩
  · next q rest hq =>
    rw [hq, List.length_cons] at hbal
    refine ⟨?_, ?_, hqc, ?_, hout1⟩
    · show s.allocated - 1 = rest.length + s.out.length
      omega
    · show s.allocated - 1 ≤ s.config.capacity
      omega
    · intro p hp
      exact hq0 p (by rw [hq]; exact List.mem_cons_of_mem _ hp)

theorem inv_pull_inner (d : T) {s : PoolState T} (h : Inv s) :
    Inv (Pool.pull_inner d s).2 := by
  obtain ⟨hbal, hcap, hqc, hq0, hout1⟩ := h
  rcases hq : s.queue with _ | ⟨⟨id, c⟩, rest⟩
  · rw [hq] at hbal
    simp only [List.length_nil, Nat.zero_add] at hbal
    simp only [Pool.pull_inner, hq]
    split
    · next halloc =>
      refine ⟨by simp; omega, by simpa using halloc, hqc, ?_, ?_⟩
      · intro p hp; simp [hq] at hp
      · intro p hp
        rcases List.mem_cons.1 hp with hp | hp
        · rw [hp]
        · exact hout1 p hp
    · next halloc =>
      refine ⟨by simpa [hq] using hbal, by simpa using hcap, hqc, ?_, hout1⟩
      intro p hp; simp [hq] at hp
  · rw [hq] at hbal
    simp only [List.length_cons] at hbal
    -- the state after the pop, holding the popped cell in hand
    have h1 : InvHand ({ s with queue := rest } : PoolState T) := by
      refine ⟨by simp; omega, hcap, hqc, ?_, hout1⟩
      intro p hp
      exact hq0 p (by rw [hq]; exact List.mem_cons_of_mem _ hp)
    -- the streak bookkeeping only ever touches `surpluspulls` or reclaims
    have h2 : ∀ s' : PoolState T, InvHand s' →
        Inv { s' with out := (id, { c with count := c.count + 1 }) :: s'.out } := by
      intro s' ⟨hbal', hcap', hqc', hq0', hout1'⟩
      refine ⟨by simp; omega, hcap', hqc', hq0', ?_⟩
      intro p hp
      rcases List.mem_cons.1 hp with hp | hp
      · rw [hp]; simp
      · exact hout1' p hp
    simp only [Pool.pull_inner, hq]
    split
    · split
      · split
        · exact h2 _ (invHand_reclaim ⟨h1.bal, h1.cap, h1.qcap, h1.queue_count, h1.out_count⟩)
        · exact h2 _ ⟨h1.bal, h1.cap, h1.qcap, h1.queue_count, h1.out_count⟩
      · exact h2 _ ⟨h1.bal, h1.cap, h1.qcap, h1.queue_count, h1.out_count⟩
    · exact h2 _ h1

theorem inv_cloneHandle {s : PoolState T} {id : Nat} {c : Cell T}
    (h : Inv s) (hf : outFind s.out id = some c) : Inv (cloneHandle s id) := by
  obtain ⟨hbal, hcap, hqc, hq0, hout1⟩ := h
  refine ⟨?_, hcap, hqc, hq0, ?_⟩
  · show s.allocated = s.queue.length + (outModify s.out id _).length
    rw [length_outModify]; exact hbal
  · intro p hp
    rcases mem_outModify_of_find _ hf p hp with hp' | hp'
    · exact hout1 p hp'
    · rw [hp']; exact Nat.le_add_left 1 c.count

theorem inv_releaseHandle {s s' : PoolState T} {id : Nat}
    (h : Inv s) (hr : releaseHandle s id = some s') : Inv s' := by
  obtain ⟨hbal, hcap, hqc, hq0, hout1⟩ := h
  rw [releaseHandle] at hr
  split at hr
  · exact absurd hr (by simp)
  · next c hf =>
    split at hr
    · next hc1 =>
      simp only [Pool.recycle] at hr
      split at hr
      · next hroom =>
        simp only [Option.some.injEq] at hr
        subst hr
        have hlen := length_outErase hf
        refine ⟨?_, hcap, hqc, ?_, ?_⟩
        · simp only [List.length_append, List.length_cons, List.length_nil]
          omega
        · intro p hp
          rcases List.mem_append.1 hp with hp' | hp'
          · exact hq0 p hp'
          · have hp'' := List.mem_singleton.1 hp'
            rw [hp'']
            rcases s.config.clear_func with _ | f <;> simp [hc1]
        · intro p hp
          exact hout1 p (mem_outErase p hp)
      · exact absurd hr (by simp)
    · next hc1 =>
      simp only [Option.some.injEq] at hr
      subst hr
      have hc := hout1 _ (outFind_mem hf)
      refine ⟨?_, hcap, hqc, hq0, ?_⟩
      · show s.allocated = s.queue.length + (outModify s.out id _).length
        rw [length_outModify]; exact hbal
      · intro p hp
        rcases mem_outModify_of_find _ hf p hp with hp' | hp'
        · exact hout1 p hp'
        · rw [hp']
          simp only at hc ⊢
          omega

theorem inv_step {d : T} {s s' : PoolState T} (h : Inv s) (hs : Step d s s') :
    Inv s' := by
  cases hs
  case pull => exact inv_pull_inner d h
  case clone id c hf => exact inv_cloneHandle h hf
  case release id hrel => exact inv_releaseHandle h hrel
  case reclaim hn => exact inv_reclaim h

theorem inv_reachable {d : T} {s0 s : PoolState T} (h0 : Inv s0)
    (hr : Reachable d s0 s) : Inv s := by
  induction hr with
  | refl => exact h0
  | tail _ hstep ih => exact inv_step ih hstep

/-! ### The clone/release round trip -/

theorem releaseHandle_find {s : PoolState T} {id : Nat} {c : Cell T}
    (hf : outFind s.out id = some c) :
    releaseHandle s id =
      if c.count = 1 then
        Pool.recycle { s with out := outErase s.out id }
          (id, { c with count := c.count - 1 })
      else
        some { s with out := outModify s.out id fun c => { c with count := c.count - 1 } } := by
  rw [releaseHandle, hf]

theorem release_cloneHandle {s : PoolState T} {id : Nat} {c : Cell T}
    (hf : outFind s.out id = some c) (h1 : 1 ≤ c.count) :
    releaseHandle (cloneHandle s id) id = some s := by
  have hfind : outFind (cloneHandle s id).out id = some ⟨c.count + 1, c.data⟩ := by
    show outFind (outModify s.out id _) id = _
    rw [outFind_outModify_self, hf]
    rfl
  rw [releaseHandle_find hfind]
  rw [if_neg (by simp; omega)]
  have key : outModify (outModify s.out id fun c => { c with count := c.count + 1 }) id
      (fun c => { c with count := c.count - 1 }) = s.out := by
    rw [outModify_outModify]
    exact outModify_id s.out id
  simp only [cloneHandle]
  rw [key]

/-! ### Concrete example pool used to instantiate the theorems -/

/-- A default configuration with capacity 2. -/
def exampleConfig : Config Unit := { Config.default Unit with capacity := 2 }

/-- The pool state `Pool::with_config` builds from `exampleConfig`. -/
def examplePool : PoolState Unit :=
  { config :=
      { capacity := 2
        prealloc := 0
        auto_reclaim := false
        surpluspull_threshold_for_reclaim := 2
        idle_threshold_for_surpluspull := 1
        clear_func := none
        need_process_reclamation := false }
    queueCap := 2
    queue := []
    out := []
    allocated := 0
    surpluspulls := 0
    additional_allocated := false
    nextId := 0 }

/-! ### The claims -/

/-- Claim C1: every pool state reachable from construction by pull, handle
clone, handle release and reclaim steps satisfies
`0 ≤ queue length ≤ allocated ≤ capacity`, i.e.
`available_noalloc ≤ allocated ≤ capacity`. -/
theorem claim_C1_invariant {T : Type} (cfg : Config T) (d : T) (s0 s : PoolState T)
    (h0 : Pool.with_config cfg d = some s0) (hr : Reachable d s0 s) :
    Pool.available_noalloc s ≤ s.allocated ∧ s.allocated ≤ Pool.capacity s := by
  have h := inv_reachable (inv_with_config h0) hr
  refine ⟨?_, h.cap⟩
  show s.queue.length ≤ s.allocated
  rw [h.bal]
  exact Nat.le_add_right _ _

theorem claim_C1_witness :
    Pool.available_noalloc (Pool.pull_inner () examplePool).2 ≤
        (Pool.pull_inner () examplePool).2.allocated ∧
      (Pool.pull_inner () examplePool).2.allocated ≤
        Pool.capacity (Pool.pull_inner () examplePool).2 :=
  claim_C1_invariant exampleConfig () examplePool _ (by rfl)
    (Relation.ReflTransGen.single (Step.pull examplePool))

/-- Claim C4: cloning a handle and then releasing the clone leaves the whole
system state exactly as if the clone had never been made (the release of a
non-last handle does not invoke recycle). -/
theorem claim_C4_clone_release_round_trip {T : Type} (s : PoolState T) (id : Nat)
    (c : Cell T) (hf : outFind s.out id = some c) (h1 : 1 ≤ c.count) :
    releaseHandle (cloneHandle s id) id = some s :=
  release_cloneHandle hf h1

theorem claim_C4_witness :
    releaseHandle (cloneHandle (Pool.pull_inner () examplePool).2 0) 0 =
      some (Pool.pull_inner () examplePool).2 :=
  claim_C4_clone_release_round_trip _ 0 ⟨1, ()⟩ (by rfl) (by decide)

/-- Claim C5: in every reachable pool state, releasing the last handle of a
cell (strong count 1) succeeds: the queue push inside `recycle` has room, so
the panic branch is unreachable. -/
theorem claim_C5_recycle_never_panics {T : Type} (cfg : Config T) (d : T)
    (s0 s : PoolState T) (id : Nat) (c : Cell T)
    (h0 : Pool.with_config cfg d = some s0) (hr : Reachable d s0 s)
    (hf : outFind s.out id = some c) (hc : c.count = 1) :
    ∃ s', releaseHandle s id = some s' := by
  have hinv := inv_reachable (inv_with_config h0) hr
  rw [releaseHandle_find hf, if_pos hc]
  have hmem := outFind_mem hf
  have houtlen : 0 < s.out.length := List.length_pos_of_mem hmem
  have hroom : s.queue.length < s.queueCap := by
    rw [hinv.qcap]
    have h1 := hinv.bal
    have h2 := hinv.cap
    have h3 : s.config.capacity ≤ max 1 s.config.capacity := Nat.le_max_right _ _
    omega
  simp only [Pool.recycle]
  rw [if_pos hroom]
  exact ⟨_, rfl⟩

theorem claim_C5_witness :
    ∃ s', releaseHandle (Pool.pull_inner () examplePool).2 0 = some s' :=
  claim_C5_recycle_never_panics exampleConfig () examplePool _ 0 ⟨1, ()⟩ (by rfl)
    (Relation.ReflTransGen.single (Step.pull examplePool)) (by rfl) (by decide)

/-- Claim C7: `Prc::get_mut` (hence `Entry::get_mut`/`OwnedEntry::get_mut`)
yields an exclusive reference exactly when the strong count is `≤ 1` and
refuses otherwise; in particular, for a sole handle (count 1), after cloning
it `get_mut` refuses on the shared cell, and after releasing the clone the
state is back where `get_mut` succeeds again. -/
theorem claim_C7_get_mut_iff_count_le_one {T : Type} (s : PoolState T) (id : Nat)
    (c : Cell T) (hf : outFind s.out id = some c) (h1 : c.count = 1) :
    (∀ c' : Cell T,
      (Prc.get_mut c' = some c'.data ↔ c'.count ≤ 1) ∧
      (Prc.get_mut c' = none ↔ 2 ≤ c'.count)) ∧
    Prc.get_mut c = some c.data ∧
    outFind (cloneHandle s id).out id = some ⟨c.count + 1, c.data⟩ ∧
    Prc.get_mut (⟨c.count + 1, c.data⟩ : Cell T) = none ∧
    releaseHandle (cloneHandle s id) id = some s := by
  refine ⟨?_, ?_, ?_, ?_, release_cloneHandle hf (by omega)⟩
  · intro c'
    constructor
    · by_cases h : c'.count ≤ 1 <;> simp [Prc.get_mut, h]
    · by_cases h : c'.count ≤ 1 <;> simp [Prc.get_mut, h] <;> omega
  · simp [Prc.get_mut, h1]
  · show outFind (outModify s.out id _) id = _
    rw [outFind_outModify_self, hf]
    rfl
  · simp [Prc.get_mut]
    omega

theorem claim_C7_witness :
    (∀ c' : Cell Unit,
      (Prc.get_mut c' = some c'.data ↔ c'.count ≤ 1) ∧
      (Prc.get_mut c' = none ↔ 2 ≤ c'.count)) ∧
    Prc.get_mut (⟨1, ()⟩ : Cell Unit) = some () ∧
    outFind (cloneHandle (Pool.pull_inner () examplePool).2 0).out 0 = some ⟨2, ()⟩ ∧
    Prc.get_mut (⟨2, ()⟩ : Cell Unit) = none ∧
    releaseHandle (cloneHandle (Pool.pull_inner () examplePool).2 0) 0 =
      some (Pool.pull_inner () examplePool).2 :=
  claim_C7_get_mut_iff_count_le_one (Pool.pull_inner () examplePool).2 0 ⟨1, ()⟩
    (by rfl) rfl

/-- Claim C2: pull returns none exactly when the queue is empty and
`allocated` has reached `capacity`; with the queue empty and
`allocated < capacity` it increments `allocated` and returns a fresh
one-born default cell; with the queue non-empty it pops the head cell,
increments its count from 0 to 1, and returns it. -/
theorem claim_C2_pull_spec {T : Type} (cfg : Config T) (d : T) (s0 s : PoolState T)
    (h0 : Pool.with_config cfg d = some s0) (hr : Reachable d s0 s) :
    ((Pool.pull_inner d s).1 = none ↔
      s.queue = [] ∧ s.config.capacity ≤ s.allocated) ∧
    (s.queue = [] → s.allocated < s.config.capacity →
      (Pool.pull_inner d s).1 = some (s.nextId, ⟨1, d⟩) ∧
      (Pool.pull_inner d s).2.allocated = s.allocated + 1) ∧
    (∀ id c rest, s.queue = (id, c) :: rest →
      c.count = 0 ∧ (Pool.pull_inner d s).1 = some (id, ⟨1, c.data⟩)) := by
  have hinv := inv_reachable (inv_with_config h0) hr
  refine ⟨?_, ?_, ?_⟩
  · rcases hq : s.queue with _ | ⟨⟨id, c⟩, rest⟩
    · by_cases hlt : s.allocated < s.config.capacity
      · simp only [Pool.pull_inner, hq]
        rw [if_pos (by simpa using hlt)]
        simp
        omega
      · simp only [Pool.pull_inner, hq]
        rw [if_neg (by simpa using hlt)]
        simp
        omega
    · simp only [Pool.pull_inner, hq]
      simp
  · intro hq hlt
    simp only [Pool.pull_inner, hq]
    rw [if_pos (by simpa using hlt)]
    exact ⟨rfl, rfl⟩
  · intro id c rest hq
    have hc0 : c.count = 0 :=
      hinv.queue_count (id, c) (by rw [hq]; exact List.mem_cons_self _ _)
    refine ⟨hc0, ?_⟩
    simp only [Pool.pull_inner, hq]
    simp [hc0]

theorem claim_C2_witness :
    ((Pool.pull_inner () examplePool).1 = none ↔
      examplePool.queue = [] ∧
        examplePool.config.capacity ≤ examplePool.allocated) ∧
    (examplePool.queue = [] →
      examplePool.allocated < examplePool.config.capacity →
      (Pool.pull_inner () examplePool).1 = some (examplePool.nextId, ⟨1, ()⟩) ∧
      (Pool.pull_inner () examplePool).2.allocated = examplePool.allocated + 1) ∧
    (∀ id c rest, examplePool.queue = (id, c) :: rest →
      c.count = 0 ∧ (Pool.pull_inner () examplePool).1 = some (id, ⟨1, c.data⟩)) :=
  claim_C2_pull_spec exampleConfig () examplePool examplePool (by rfl)
    Relation.ReflTransGen.refl

/-- The configuration of the auto-reclaim streak scenario: capacity 5,
prealloc 2, `surpluspull_threshold_for_reclaim` 3,
`idle_threshold_for_surpluspull` 2, auto-reclaim on. -/
def reclaimScenarioConfig : Config Unit :=
  { Config.default Unit with
    capacity := 5
    prealloc := 2
    auto_reclaim := true
    surpluspull_threshold_for_reclaim := 3
    idle_threshold_for_surpluspull := 2 }

/-- Claim C3: in the auto-reclaim scenario, pull five handles and release
all five (then `allocated = 5` with 5 cells in the queue); three consecutive
pulls then leave `allocated` at 5, 5 and 4 respectively — exactly one
reclaim step fires, on the third pull. -/
theorem claim_C3_auto_reclaim_streak :
    (do
      let s0 ← Pool.with_config reclaimScenarioConfig ()
      let p1 := Pool.pull_inner () s0
      let e1 ← p1.1
      let p2 := Pool.pull_inner () p1.2
      let e2 ← p2.1
      let p3 := Pool.pull_inner () p2.2
      let e3 ← p3.1
      let p4 := Pool.pull_inner () p3.2
      let e4 ← p4.1
      let p5 := Pool.pull_inner () p4.2
      let e5 ← p5.1
      let t1 ← releaseHandle p5.2 e1.1
      let t2 ← releaseHandle t1 e2.1
      let t3 ← releaseHandle t2 e3.1
      let t4 ← releaseHandle t3 e4.1
      let t5 ← releaseHandle t4 e5.1
      let q1 := Pool.pull_inner () t5
      let _ ← q1.1
      let q2 := Pool.pull_inner () q1.2
      let _ ← q2.1
      let q3 := Pool.pull_inner () q2.2
      let _ ← q3.1
      pure (t5.allocated, t5.queue.length,
        q1.2.allocated, q2.2.allocated, q3.2.allocated)) =
      some (5, 5, 5, 5, 4) := by
  rfl

/-- The configuration of the clear-hook scenario: capacity 2, payload a
string, clear hook truncate-to-empty. -/
def clearHookConfig : Config String :=
  { Config.default String with
    capacity := 2
    clear_func := some fun _ => "" }

/-- The pool state `Pool::with_config` builds from `clearHookConfig`. -/
def clearHookPoolState : PoolState String :=
  { config :=
      { capacity := 2
        prealloc := 0
        auto_reclaim := false
        surpluspull_threshold_for_reclaim := 2
        idle_threshold_for_surpluspull := 1
        clear_func := some fun _ => ""
        need_process_reclamation := false }
    queueCap := 2
    queue := []
    out := []
    allocated := 0
    surpluspulls := 0
    additional_allocated := false
    nextId := 0 }

/-- Claim C6: recycle applies the configured clear hook to the payload
before pushing the cell onto the queue, so after the last handle of a
mutated cell is released, the next pull popping that cell observes the
cleared payload; concretely with a string payload and truncate-to-empty
hook, pull-with append "hello", drop, pull observes "". -/
theorem claim_C6_clear_hook :
    (∀ (T : Type) (s : PoolState T) (idc : Nat × Cell T) (f : T → T),
        s.config.clear_func = some f → s.queue.length < s.queueCap →
        Pool.recycle s idc =
          some { s with queue := s.queue ++ [(idc.1, ⟨idc.2.count, f idc.2.data⟩)] }) ∧
    (do
      let s0 ← Pool.with_config clearHookConfig ""
      let p1 := pullWith (fun x => x ++ "hello") "" s0
      let e1 ← p1.1
      let s1 ← releaseHandle p1.2 e1.1
      let p2 := Pool.pull_inner "" s1
      let e2 ← p2.1
      pure (e1.2.data, e2.2.data)) = some ("hello", "") := by
  constructor
  · intro T s idc f hclear hroom
    simp only [Pool.recycle, hclear]
    rw [if_pos hroom]
  · rfl

theorem claim_C6_witness :
    (Pool.recycle clearHookPoolState (0, ⟨0, "x"⟩) =
      some { clearHookPoolState with
        queue := clearHookPoolState.queue ++ [(0, ⟨0, ""⟩)] }) ∧
    ((do
      let s0 ← Pool.with_config clearHookConfig ""
      let p1 := pullWith (fun x => x ++ "hello") "" s0
      let e1 ← p1.1
      let s1 ← releaseHandle p1.2 e1.1
      let p2 := Pool.pull_inner "" s1
      let e2 ← p2.1
      pure (e1.2.data, e2.2.data)) = some ("hello", "")) :=
  ⟨claim_C6_clear_hook.1 String clearHookPoolState (0, ⟨0, "x"⟩) (fun _ => "") rfl
    (by decide), claim_C6_clear_hook.2⟩

/-! ### Facts about configuration post-processing -/

theorem post_process_capacity (c : Config T) : c.post_process.capacity = c.capacity := by
  simp only [Config.post_process]
  split <;> split <;> rfl

theorem post_process_prealloc (c : Config T) : c.post_process.prealloc = c.prealloc := by
  simp only [Config.post_process]
  split <;> split <;> rfl

theorem post_process_npr (c : Config T) :
    c.post_process.need_process_reclamation =
      (c.auto_reclaim && c.prealloc ≠ c.capacity) := by
  simp only [Config.post_process]
  split <;> split <;> rfl

/-- Claim C8: construction with `prealloc > capacity` fails the assertion
(panics); with `prealloc ≤ capacity` it succeeds and yields a pool with
`allocated = prealloc`, a queue of exactly `prealloc` zero-born
default-valued cells, and queue capacity `max 1 capacity`. -/
theorem claim_C8_construction {T : Type} (cfg : Config T) (d : T) :
    (cfg.capacity < cfg.prealloc → Pool.with_config cfg d = none) ∧
    (cfg.prealloc ≤ cfg.capacity →
      ∃ s0, Pool.with_config cfg d = some s0 ∧
        s0.allocated = cfg.prealloc ∧
        s0.queue = (List.range cfg.prealloc).map (fun i => (i, ⟨0, d⟩)) ∧
        s0.queueCap = max 1 cfg.capacity) := by
  have hc := post_process_capacity cfg
  have hp := post_process_prealloc cfg
  constructor
  · intro h
    simp only [Pool.with_config]
    rw [if_neg (by rw [hc, hp]; omega)]
  · intro h
    simp only [Pool.with_config]
    rw [if_pos (by rw [hc, hp]; omega)]
    refine ⟨_, rfl, ?_, ?_, ?_⟩
    · show cfg.post_process.prealloc = cfg.prealloc
      exact hp
    · show (List.range cfg.post_process.prealloc).map _ = _
      rw [hp]
    · show max 1 cfg.post_process.capacity = max 1 cfg.capacity
      rw [hc]

theorem claim_C8_witness :
    (Pool.with_config { Config.default Unit with capacity := 1, prealloc := 3 } () =
      none) ∧
    (∃ s0, Pool.with_config { Config.default Unit with capacity := 3, prealloc := 2 } () =
        some s0 ∧
      s0.allocated = 2 ∧
      s0.queue = (List.range 2).map (fun i => (i, ⟨0, ()⟩)) ∧
      s0.queueCap = max 1 3) :=
  ⟨(claim_C8_construction { Config.default Unit with capacity := 1, prealloc := 3 } ()).1
      (by decide),
    (claim_C8_construction { Config.default Unit with capacity := 3, prealloc := 2 } ()).2
      (by decide)⟩

/-- In an exhausted pool state (empty queue and `allocated` at or above
capacity) a pull returns none and leaves the state exhausted. -/
theorem pull_exhausted {T : Type} {d : T} {s : PoolState T}
    (h1 : s.queue = []) (h2 : s.config.capacity ≤ s.allocated) :
    (Pool.pull_inner d s).1 = none ∧
    (Pool.pull_inner d s).2.queue = [] ∧
    (Pool.pull_inner d s).2.config.capacity ≤ (Pool.pull_inner d s).2.allocated := by
  simp only [Pool.pull_inner, h1]
  rw [if_neg (by simp; omega)]
  exact ⟨rfl, rfl, h2⟩

/-- Claim C9: a capacity-0 pool is constructible, reports `available = 0`
immediately after construction, and every pull on it — no matter how many
are attempted — returns none. -/
theorem claim_C9_capacity_zero {T : Type} (cfg : Config T) (d : T) (s0 : PoolState T)
    (h0 : Pool.with_config cfg d = some s0) (hcap : cfg.capacity = 0) :
    Pool.available s0 = 0 ∧
    ∀ n, (Pool.pull_inner d ((fun s => (Pool.pull_inner d s).2)^[n] s0)).1 = none := by
  have hc := post_process_capacity cfg
  have hp := post_process_prealloc cfg
  simp only [Pool.with_config] at h0
  split at h0
  · next hle =>
    rw [hc, hcap] at hle
    simp only [Option.some.injEq] at h0
    subst h0
    have hp0 : cfg.post_process.prealloc = 0 := by omega
    have hq0 : ((List.range cfg.post_process.prealloc).map
        fun i => ((i, ⟨0, d⟩) : Nat × Cell T)) = [] := by
      rw [hp0]
      rfl
    constructor
    · simp [Pool.available, Pool.in_use, hc, hcap]
    · have key : ∀ n,
          ((fun s => (Pool.pull_inner d s).2)^[n]
            ({ config := cfg.post_process
               queueCap := max 1 cfg.post_process.capacity
               queue := (List.range cfg.post_process.prealloc).map fun i => (i, ⟨0, d⟩)
               out := []
               allocated := cfg.post_process.prealloc
               surpluspulls := 0
               additional_allocated := false
               nextId := cfg.post_process.prealloc } : PoolState T)).queue = [] ∧
          ((fun s => (Pool.pull_inner d s).2)^[n]
            ({ config := cfg.post_process
               queueCap := max 1 cfg.post_process.capacity
               queue := (List.range cfg.post_process.prealloc).map fun i => (i, ⟨0, d⟩)
               out := []
               allocated := cfg.post_process.prealloc
               surpluspulls := 0
               additional_allocated := false
               nextId := cfg.post_process.prealloc } : PoolState T)).config.capacity ≤
          ((fun s => (Pool.pull_inner d s).2)^[n]
            ({ config := cfg.post_process
               queueCap := max 1 cfg.post_process.capacity
               queue := (List.range cfg.post_process.prealloc).map fun i => (i, ⟨0, d⟩)
               out := []
               allocated := cfg.post_process.prealloc
               surpluspulls := 0
               additional_allocated := false
               nextId := cfg.post_process.prealloc } : PoolState T)).allocated := by
        intro n
        induction n with
        | zero =>
          refine ⟨hq0, ?_⟩
          show cfg.post_process.capacity ≤ cfg.post_process.prealloc
          omega
        | succ n ih =>
          rw [Function.iterate_succ_apply']
          exact ⟨(pull_exhausted ih.1 ih.2).2.1, (pull_exhausted ih.1 ih.2).2.2⟩
      intro n
      exact (pull_exhausted (key n).1 (key n).2).1
  · exact absurd h0 (by simp)

/-- The pool state `Pool::with_config` builds from a capacity-0
configuration. -/
def zeroCapacityPool : PoolState Unit :=
  { config :=
      { capacity := 0
        prealloc := 0
        auto_reclaim := false
        surpluspull_threshold_for_reclaim := 2
        idle_threshold_for_surpluspull := 1
        clear_func := none
        need_process_reclamation := false }
    queueCap := 1
    queue := []
    out := []
    allocated := 0
    surpluspulls := 0
    additional_allocated := false
    nextId := 0 }

theorem claim_C9_witness :
    Pool.available zeroCapacityPool = 0 ∧
    (Pool.pull_inner ()
      ((fun s => (Pool.pull_inner () s).2)^[3] zeroCapacityPool)).1 = none :=
  ⟨(claim_C9_capacity_zero { Config.default Unit with capacity := 0 } () zeroCapacityPool
      (by rfl) rfl).1,
    (claim_C9_capacity_zero { Config.default Unit with capacity := 0 } () zeroCapacityPool
      (by rfl) rfl).2 3⟩

/-- In a pool that is not reclaiming and whose `allocated` is at capacity,
a pull never constructs a cell: the configuration, `allocated` and the
fresh-id counter are untouched. -/
theorem pull_no_alloc {T : Type} {d : T} {s : PoolState T}
    (hnpr : s.config.need_process_reclamation = false)
    (hfull : s.config.capacity ≤ s.allocated) :
    (Pool.pull_inner d s).2.config = s.config ∧
    (Pool.pull_inner d s).2.allocated = s.allocated ∧
    (Pool.pull_inner d s).2.nextId = s.nextId := by
  rcases hq : s.queue with _ | ⟨⟨id, c⟩, rest⟩
  · simp only [Pool.pull_inner, hq]
    rw [if_neg (by simp; omega)]
    exact ⟨rfl, rfl, rfl⟩
  · simp only [Pool.pull_inner, hq, hnpr]
    exact ⟨rfl, rfl, rfl⟩

/-- Releasing a handle never changes the configuration, the `allocated`
counter or the fresh-id counter. -/
theorem releaseHandle_fields {T : Type} {s s' : PoolState T} {id : Nat}
    (h : releaseHandle s id = some s') :
    s'.config = s.config ∧ s'.allocated = s.allocated ∧ s'.nextId = s.nextId := by
  rw [releaseHandle] at h
  split at h
  · exact absurd h (by simp)
  · split at h
    · simp only [Pool.recycle] at h
      split at h
      · simp only [Option.some.injEq] at h
        subst h
        exact ⟨rfl, rfl, rfl⟩
      · exact absurd h (by simp)
    · simp only [Option.some.injEq] at h
      subst h
      exact ⟨rfl, rfl, rfl⟩

/-- Claim C10: `Pool::with_capacity n` preallocates fully: right after
construction `allocated = n` and `available_noalloc = n`, the reclaim
heuristic is never active, and in every reachable state of such a pool
`allocated` stays `n` and a pull never constructs a new cell (it never
consumes a fresh id). -/
theorem claim_C10_with_capacity_full {T : Type} (n : Nat) (d : T)
    (s0 s : PoolState T) (h0 : Pool.with_capacity n d = some s0)
    (hr : Reachable d s0 s) :
    s0.allocated = n ∧ Pool.available_noalloc s0 = n ∧
    s0.config.need_process_reclamation = false ∧
    s.allocated = n ∧ (Pool.pull_inner d s).2.nextId = s.nextId := by
  simp only [Pool.with_capacity, Pool.new, Pool.with_config] at h0
  split at h0
  · simp only [Option.some.injEq] at h0
    subst h0
    have hcfgc : ({ Config.default T with capacity := n, prealloc := n } :
        Config T).post_process.capacity = n := post_process_capacity _
    have hcfgp : ({ Config.default T with capacity := n, prealloc := n } :
        Config T).post_process.prealloc = n := post_process_prealloc _
    have hcfgn : ({ Config.default T with capacity := n, prealloc := n } :
        Config T).post_process.need_process_reclamation = false := by
      rw [post_process_npr]
      rfl
    have hmain : s.config =
        ({ Config.default T with capacity := n, prealloc := n } :
          Config T).post_process ∧ s.allocated = n := by
      induction hr with
      | refl => exact ⟨rfl, hcfgp⟩
      | @tail b c hsteps hstep ih =>
        have hnpr : b.config.need_process_reclamation = false := by
          rw [ih.1]; exact hcfgn
        cases hstep
        case pull =>
          have h := pull_no_alloc (d := d) hnpr
            (by rw [ih.1, ih.2, post_process_capacity])
          exact ⟨h.1.trans ih.1, h.2.1.trans ih.2⟩
        case clone id c hf => exact ih
        case release id hrel =>
          have h := releaseHandle_fields hrel
          exact ⟨h.1.trans ih.1, h.2.1.trans ih.2⟩
        case reclaim hn =>
          rw [hnpr] at hn
          exact absurd hn (by simp)
    refine ⟨hcfgp, ?_, hcfgn, hmain.2, ?_⟩
    · show ((List.range _).map _).length = n
      simp [hcfgp]
    · exact (pull_no_alloc (d := d) (hmain.1 ▸ hcfgn)
        (by rw [hmain.1, hmain.2, post_process_capacity])).2.2
  · exact absurd h0 (by simp)

/-- The pool state `Pool::with_capacity 2` builds. -/
def fullPreallocPool : PoolState Unit :=
  { config :=
      { capacity := 2
        prealloc := 2
        auto_reclaim := false
        surpluspull_threshold_for_reclaim := 2
        idle_threshold_for_surpluspull := 1
        clear_func := none
        need_process_reclamation := false }
    queueCap := 2
    queue := [(0, ⟨0, ()⟩), (1, ⟨0, ()⟩)]
    out := []
    allocated := 2
    surpluspulls := 0
    additional_allocated := false
    nextId := 2 }

theorem claim_C10_witness :
    fullPreallocPool.allocated = 2 ∧ Pool.available_noalloc fullPreallocPool = 2 ∧
    fullPreallocPool.config.need_process_reclamation = false ∧
    (Pool.pull_inner () fullPreallocPool).2.allocated = 2 ∧
    (Pool.pull_inner () (Pool.pull_inner () fullPreallocPool).2).2.nextId =
      (Pool.pull_inner () fullPreallocPool).2.nextId :=
  have h := claim_C10_with_capacity_full 2 () fullPreallocPool
    (Pool.pull_inner () fullPreallocPool).2 (by rfl)
    (Relation.ReflTransGen.single (Step.pull fullPreallocPool))
  ⟨h.1, h.2.1, h.2.2.1, h.2.2.2.1, h.2.2.2.2⟩

end ConcurrentPool
